import Mathlib

/-!
Verification of the Twofold Chess rules code.

This file gives a shallow embedding, in Lean, of the move-generation and
game-state logic of the repository:

* `frontend/src/utils/chessLogic.ts` — piece parsing (`getPieceInfo`),
  pseudo-legal move generation per piece kind, the self-check filter in
  `getValidMoves`, attack detection (`isSquareAttacked`, `isKingInCheck`)
  and endgame classification (`isCheckmate`, `isStalemate`);
* the capture-mirror loop of `handleSquareClick` in the Gameboard
  component, and `createInitialBoard`;
* `backend/lobbyManager.ts` — the lobby registry.

Boards are `List (List (Option String))`, cells hold the raw piece strings
of the source (`"P1"`, `"r"`, …); coordinates are `Int`, as the source's
`number` coordinates may in principle be any integer, with `isOnBoard`
guarding all accesses exactly as in the source.
-/

namespace Twofold

/-- Piece colors, as in `PieceInfo.color` of `chessLogic.ts`. -/
inductive Color
  | White
  | Black
deriving DecidableEq, Repr

/-- Flip a color (`kingColor === 'White' ? 'Black' : 'White'`). -/
def Color.other : Color → Color
  | .White => .Black
  | .Black => .White

/-- Piece kinds, the `type` field of `PieceInfo`. -/
inductive PieceType
  | P
  | R
  | N
  | B
  | Q
  | K
deriving DecidableEq, Repr

/-- `PieceInfo` of `chessLogic.ts`: kind, color, and the raw id string. -/
structure PieceInfo where
  type : PieceType
  color : Color
  id : String
deriving DecidableEq, Repr

/-- A cell holds a raw piece string or is empty (`Piece = string | null`). -/
abbrev Cell := Option String

/-- `Board = Piece[][]` of the source. -/
abbrev Board := List (List Cell)

/-- Map an upper-case letter to a piece kind, mirroring the membership test
`['P','R','N','B','Q','K'].includes(letter)` of `getPieceInfo`. -/
def letterToType (ch : Char) : Option PieceType :=
  if ch = 'P' then some .P
  else if ch = 'R' then some .R
  else if ch = 'N' then some .N
  else if ch = 'B' then some .B
  else if ch = 'Q' then some .Q
  else if ch = 'K' then some .K
  else none

/-- `getPieceInfo` of `chessLogic.ts`: `null`/empty strings give `null`;
otherwise the first character, upper-cased, must be one of P R N B Q K;
the color is White exactly when the first character is already upper case. -/
def getPieceInfo : Cell → Option PieceInfo
  | none => none
  | some s =>
    match s.data with
    | [] => none
    | ch :: _ =>
      let letter := ch.toUpper
      let color : Color := if ch = letter then .White else .Black
      match letterToType letter with
      | none => none
      | some t => some ⟨t, color, s⟩

/-- `isOnBoard` of `chessLogic.ts`. -/
def isOnBoard (row col : Int) : Bool :=
  decide (0 ≤ row) && decide (row < 8) && decide (0 ≤ col) && decide (col < 8)

/-- Read `board[row][col]`; all reads in the source are guarded by
`isOnBoard`, so off-board reads return `none`. -/
def cellAt (b : Board) (row col : Int) : Cell :=
  if isOnBoard row col then (b.getD row.toNat []).getD col.toNat none
  else none

/-- Write `board[row][col] = v` on an on-board square (off-board writes are
a no-op; the source only writes after on-board checks, see `getValidMoves`). -/
def setCell (b : Board) (row col : Int) (v : Cell) : Board :=
  if isOnBoard row col then b.set row.toNat ((b.getD row.toNat []).set col.toNat v)
  else b

/-- A move destination, the `Position` type of the source. -/
abbrev Pos := Int × Int

/-- The `direction` local of `getPawnMoves` in `chessLogic.ts`: White
moves up (row decreases), Black moves down.  `getPawnMoves` generates the
forward push, the double push from the starting rank, and the two diagonal
captures; en passant is only a `TODO` comment in the source and is not
generated. -/
def pawnDir (c : Color) : Int := if c = .White then -1 else 1

/-- The `startingRow` local of `getPawnMoves`: row 6 for White, row 1 for
Black. -/
def pawnStartRow (c : Color) : Int := if c = .White then 6 else 1

/-- `getPawnMoves` of `chessLogic.ts` (continued): the move list itself —
the forward block (one step, plus the double push from the starting rank)
followed by the two diagonal captures. -/
def getPawnMoves (b : Board) (info : PieceInfo) (row col : Int) : List Pos :=
  (if isOnBoard (row + pawnDir info.color) col &&
      (cellAt b (row + pawnDir info.color) col).isNone then
    (row + pawnDir info.color, col) ::
      (if row = pawnStartRow info.color then
        (if isOnBoard (row + 2 * pawnDir info.color) col &&
            (cellAt b (row + 2 * pawnDir info.color) col).isNone then
          [(row + 2 * pawnDir info.color, col)]
        else [])
      else [])
  else [])
  ++ ([-1, 1] : List Int).filterMap (fun offset =>
      if isOnBoard (row + pawnDir info.color) (col + offset) then
        match cellAt b (row + pawnDir info.color) (col + offset) with
        | some tid =>
          match getPieceInfo (some tid) with
          | some tinfo =>
            if tinfo.color ≠ info.color then
              some (row + pawnDir info.color, col + offset)
            else none
          | none => none
        | none => none
      else none)

/-- The eight knight offsets of `getKnightMoves`. -/
def knightMoveOffsets : List (Int × Int) :=
  [(1, 2), (1, -2), (-1, 2), (-1, -2), (2, 1), (2, -1), (-2, 1), (-2, -1)]

/-- Keep an offset target when it is on the board and empty or holds an
opposing piece — the shared step logic of `getKnightMoves`/`getKingMoves`. -/
def stepTarget (b : Board) (info : PieceInfo) (row col : Int) (d : Int × Int) : Option Pos :=
  let newRow := row + d.1
  let newCol := col + d.2
  if isOnBoard newRow newCol then
    match cellAt b newRow newCol with
    | some tid =>
      match getPieceInfo (some tid) with
      | some tinfo => if tinfo.color ≠ info.color then some (newRow, newCol) else none
      | none => none
    | none => some (newRow, newCol)
  else none

/-- `getKnightMoves` of `chessLogic.ts`. -/
def getKnightMoves (b : Board) (info : PieceInfo) (row col : Int) : List Pos :=
  knightMoveOffsets.filterMap (stepTarget b info row col)

/-- One ray of the sliding-piece scan: steps `i, i+1, …` from `(row, col)`
in direction `(dr, dc)` with the given fuel, stopping at the board edge,
on an opposing piece, or before a friendly (or unparsable) piece — the
inner `for (let i = 1; i < 8; i++)` loop of `getRookMoves`/`getBishopMoves`. -/
def scanFrom (b : Board) (info : PieceInfo) (row col dr dc : Int) :
    Nat → Nat → List Pos
  | _, 0 => []
  | i, fuel + 1 =>
    let newRow := row + dr * (i : Int)
    let newCol := col + dc * (i : Int)
    if isOnBoard newRow newCol then
      match cellAt b newRow newCol with
      | some tid =>
        match getPieceInfo (some tid) with
        | some tinfo =>
          if tinfo.color ≠ info.color then [(newRow, newCol)] else []
        | none => []
      | none => (newRow, newCol) :: scanFrom b info row col dr dc (i + 1) fuel
    else []

/-- The four cardinal directions of `getRookMoves`. -/
def rookDirections : List (Int × Int) := [(0, 1), (0, -1), (1, 0), (-1, 0)]

/-- The four diagonal directions of `getBishopMoves`. -/
def bishopDirections : List (Int × Int) := [(1, 1), (1, -1), (-1, 1), (-1, -1)]

/-- `getRookMoves` of `chessLogic.ts`: ray scans over the cardinal
directions, at most seven steps each. -/
def getRookMoves (b : Board) (info : PieceInfo) (row col : Int) : List Pos :=
  rookDirections.flatMap (fun d => scanFrom b info row col d.1 d.2 1 7)

/-- `getBishopMoves` of `chessLogic.ts`. -/
def getBishopMoves (b : Board) (info : PieceInfo) (row col : Int) : List Pos :=
  bishopDirections.flatMap (fun d => scanFrom b info row col d.1 d.2 1 7)

/-- `getQueenMoves` of `chessLogic.ts`: rook moves then bishop moves. -/
def getQueenMoves (b : Board) (info : PieceInfo) (row col : Int) : List Pos :=
  getRookMoves b info row col ++ getBishopMoves b info row col

/-- The eight king offsets of `getKingMoves`. -/
def kingMoveOffsets : List (Int × Int) :=
  [(0, 1), (0, -1), (1, 0), (-1, 0), (1, 1), (1, -1), (-1, 1), (-1, -1)]

/-- `getKingMoves` of `chessLogic.ts` (no castling; the source's TODO). -/
def getKingMoves (b : Board) (info : PieceInfo) (row col : Int) : List Pos :=
  kingMoveOffsets.filterMap (stepTarget b info row col)

/-- The `switch (pieceInfo.type)` dispatch of `getValidMoves`. -/
def pseudoMovesFor (b : Board) (info : PieceInfo) (row col : Int) : List Pos :=
  match info.type with
  | .P => getPawnMoves b info row col
  | .N => getKnightMoves b info row col
  | .R => getRookMoves b info row col
  | .B => getBishopMoves b info row col
  | .Q => getQueenMoves b info row col
  | .K => getKingMoves b info row col

/-- The 64 squares in the row-major order of the source's nested
`for (let r …) for (let c …)` loops. -/
def allSquares : List Pos :=
  (List.range 8).flatMap (fun r => (List.range 8).map (fun c => (Int.ofNat r, Int.ofNat c)))

/-- The squares a piece attacks, as enumerated inside `isSquareAttacked`:
pawns attack only their two forward diagonals (regardless of occupancy),
every other kind uses its ordinary move generator. -/
def attackSquaresOf (b : Board) (info : PieceInfo) (row col : Int) : List Pos :=
  match info.type with
  | .P =>
    let pawnDirection : Int := if info.color = .White then -1 else 1
    ([-1, 1] : List Int).filterMap (fun offset =>
      let attackRow := row + pawnDirection
      let attackCol := col + offset
      if isOnBoard attackRow attackCol then some (attackRow, attackCol) else none)
  | .N => getKnightMoves b info row col
  | .R => getRookMoves b info row col
  | .B => getBishopMoves b info row col
  | .Q => getQueenMoves b info row col
  | .K => getKingMoves b info row col

/-- `isSquareAttacked` of `chessLogic.ts`: some piece of `attackerColor`
has the target among its attack squares. -/
def isSquareAttacked (b : Board) (targetRow targetCol : Int) (attackerColor : Color) : Bool :=
  allSquares.any (fun rc =>
    match getPieceInfo (cellAt b rc.1 rc.2) with
    | some info =>
      decide (info.color = attackerColor) &&
        (attackSquaresOf b info rc.1 rc.2).contains (targetRow, targetCol)
    | none => false)

/-- The king-search loop of `isKingInCheck`: first square, in row-major
order, holding a king of the given color. -/
def findKing (b : Board) (kingColor : Color) : Option Pos :=
  allSquares.find? (fun rc =>
    match getPieceInfo (cellAt b rc.1 rc.2) with
    | some info => decide (info.type = .K) && decide (info.color = kingColor)
    | none => false)

/-- `isKingInCheck` of `chessLogic.ts`; a board with no king of the color
returns `false` (the source's `kingRow === -1` early return). -/
def isKingInCheck (b : Board) (kingColor : Color) : Bool :=
  match findKing b kingColor with
  | none => false
  | some (kingRow, kingCol) => isSquareAttacked b kingRow kingCol kingColor.other

/-- The hypothetical board built inside `getValidMoves`'s legality loop:
a copy with the piece placed on the destination and the origin cleared. -/
def simMove (b : Board) (pieceId : Cell) (fromRow fromCol : Int) (m : Pos) : Board :=
  setCell (setCell b m.1 m.2 pieceId) fromRow fromCol none

/-- The pseudo-legal moves `getValidMoves` computes before its self-check
filter: empty when the piece string does not parse or is not the
side-to-move's, otherwise the per-kind generator. -/
def pseudoLegalMoves (b : Board) (pieceId : Cell) (fromRow fromCol : Int)
    (playerTurn : Color) : List Pos :=
  match getPieceInfo pieceId with
  | none => []
  | some info =>
    if info.color ≠ playerTurn then []
    else pseudoMovesFor b info fromRow fromCol

/-- `getValidMoves` of `chessLogic.ts`: pseudo-legal moves filtered by
"the mover's king is not in check on the simulated board". -/
def getValidMoves (b : Board) (pieceId : Cell) (fromRow fromCol : Int)
    (playerTurn : Color) : List Pos :=
  (pseudoLegalMoves b pieceId fromRow fromCol playerTurn).filter
    (fun m => !isKingInCheck (simMove b pieceId fromRow fromCol m) playerTurn)

/-- The no-legal-move scan shared by `isCheckmate` and `isStalemate`:
some cell holds a piece of the color with a nonempty `getValidMoves`. -/
def colorHasLegalMove (b : Board) (kingColor : Color) : Bool :=
  allSquares.any (fun rc =>
    match cellAt b rc.1 rc.2 with
    | some pid =>
      match getPieceInfo (some pid) with
      | some info =>
        decide (info.color = kingColor) &&
          !(getValidMoves b (some pid) rc.1 rc.2 kingColor).isEmpty
      | none => false
    | none => false)

/-- `isCheckmate` of `chessLogic.ts`. -/
def isCheckmate (b : Board) (kingColor : Color) : Bool :=
  if !isKingInCheck b kingColor then false
  else !colorHasLegalMove b kingColor

/-- `isStalemate` of `chessLogic.ts`. -/
def isStalemate (b : Board) (kingColor : Color) : Bool :=
  if isKingInCheck b kingColor then false
  else !colorHasLegalMove b kingColor

/-! ## Membership in the square grid -/

theorem mem_allSquares (rc : Pos) : rc ∈ allSquares ↔ isOnBoard rc.1 rc.2 = true := by
  obtain ⟨r, c⟩ := rc
  rw [allSquares]
  constructor
  · intro hmem
    obtain ⟨a, ha, hmm⟩ := List.mem_flatMap.mp hmem
    obtain ⟨b, hb, heq⟩ := List.mem_map.mp hmm
    rw [List.mem_range] at ha hb
    injection heq with h1 h2
    subst h1; subst h2
    simp only [isOnBoard, Bool.and_eq_true, decide_eq_true_eq, Int.ofNat_eq_natCast]
    refine ⟨⟨⟨?_, ?_⟩, ?_⟩, ?_⟩ <;> omega
  · intro hon
    simp only [isOnBoard, Bool.and_eq_true, decide_eq_true_eq] at hon
    obtain ⟨⟨⟨hr0, hr8⟩, hc0⟩, hc8⟩ := hon
    refine List.mem_flatMap.mpr ⟨r.toNat, List.mem_range.mpr (by omega), ?_⟩
    refine List.mem_map.mpr ⟨c.toNat, List.mem_range.mpr (by omega), ?_⟩
    simp only [Int.ofNat_eq_natCast, Int.toNat_of_nonneg hr0, Int.toNat_of_nonneg hc0]

/-! ## C1: the self-check filter of `getValidMoves` -/

/-- C1: every move returned by `getValidMoves` leaves the mover's king out
of check on the board obtained by placing the piece on the destination and
clearing the origin, and every pseudo-legal move whose simulation leaves
that king in check is excluded from the result. -/
theorem getValidMoves_no_self_check (b : Board) (pieceId : Cell) (fromRow fromCol : Int)
    (playerTurn : Color) (m : Pos) (_hon : isOnBoard fromRow fromCol = true) :
    (m ∈ getValidMoves b pieceId fromRow fromCol playerTurn →
      isKingInCheck (simMove b pieceId fromRow fromCol m) playerTurn = false)
    ∧ (m ∈ pseudoLegalMoves b pieceId fromRow fromCol playerTurn →
      isKingInCheck (simMove b pieceId fromRow fromCol m) playerTurn = true →
      m ∉ getValidMoves b pieceId fromRow fromCol playerTurn) := by
  constructor
  · intro hm
    have := (List.mem_filter.mp hm).2
    simpa using this
  · intro _ hc hmem
    have := (List.mem_filter.mp hmem).2
    simp [hc] at this

/-- A small position used to witness the theorems: Black king a8, Black
rook e8, White rook e2, White king e1 — the White rook is pinned. -/
def pinBoard : Board :=
  [[some "k", none, none, none, some "r", none, none, none],
   List.replicate 8 none, List.replicate 8 none, List.replicate 8 none,
   List.replicate 8 none, List.replicate 8 none,
   [none, none, none, none, some "R", none, none, none],
   [none, none, none, none, some "K", none, none, none]]

/-- Witness for C1 at a concrete pin: the accepted move e2–e3 leaves White
out of check, and the pseudo-legal move e2–a2 (leaving the king to the
enemy rook) is excluded. -/
theorem getValidMoves_no_self_check_witness :
    isKingInCheck (simMove pinBoard (some "R") 6 4 (5, 4)) .White = false
    ∧ (6, 0) ∉ getValidMoves pinBoard (some "R") 6 4 .White :=
  ⟨(getValidMoves_no_self_check pinBoard (some "R") 6 4 .White (5, 4) (by decide)).1
      (by decide),
   (getValidMoves_no_self_check pinBoard (some "R") 6 4 .White (6, 0) (by decide)).2
      (by decide) (by decide)⟩

/-! ## C9: `isKingInCheck` on a kingless board -/

/-- C9: on a board containing no king of the given color, `isKingInCheck`
returns `false` (the source's `kingRow === -1` early return); being a total
Lean function, it — and with it `getValidMoves`, `isCheckmate`,
`isStalemate` — is well-defined on such boards. -/
theorem isKingInCheck_no_king (b : Board) (kingColor : Color)
    (h : ∀ r c : Int, ∀ info, getPieceInfo (cellAt b r c) = some info →
      ¬(info.type = .K ∧ info.color = kingColor)) :
    isKingInCheck b kingColor = false := by
  have hfind : findKing b kingColor = none := by
    rw [findKing, List.find?_eq_none]
    intro rc _
    cases hinfo : getPieceInfo (cellAt b rc.1 rc.2) with
    | none => simp
    | some info =>
      have := h rc.1 rc.2 info hinfo
      simp only [Bool.and_eq_true, decide_eq_true_eq, not_and]
      tauto
  rw [isKingInCheck, hfind]

/-- The all-empty board. -/
def emptyBoard : Board := List.replicate 8 (List.replicate 8 none)

theorem cellAt_emptyBoard (r c : Int) : cellAt emptyBoard r c = none := by
  rw [cellAt, emptyBoard]
  split
  · rw [List.getD_eq_getElem?_getD]
    conv_lhs => rw [List.getD_eq_getElem?_getD, List.getElem?_replicate]
    rcases Nat.lt_or_ge r.toNat 8 with h | h
    · rw [if_pos h]
      show (List.replicate 8 (none : Cell))[c.toNat]?.getD none = none
      rw [List.getElem?_replicate]
      split <;> rfl
    · rw [if_neg (Nat.not_lt.mpr h)]
      rfl
  · rfl

/-- Witness for C9: the empty board has no White king, and
`isKingInCheck` returns `false` there. -/
theorem isKingInCheck_no_king_witness :
    isKingInCheck emptyBoard Color.White = false :=
  isKingInCheck_no_king _ _ (by
    intro r c info h
    rw [cellAt_emptyBoard] at h
    exact Option.noConfusion h)

/-! ## C4: `isCheckmate` and `isStalemate` -/

/-- C4: `isCheckmate` holds exactly when the color's king is in check and
no piece of that color has a legal move; `isStalemate` holds exactly when
the king is not in check and no piece of that color has a legal move; the
two are never simultaneously true. -/
theorem isCheckmate_isStalemate_characterization (b : Board) (kingColor : Color) :
    (isCheckmate b kingColor = true ↔
      isKingInCheck b kingColor = true ∧
        ∀ r c : Int, ∀ pid, cellAt b r c = some pid →
          ∀ info, getPieceInfo (some pid) = some info → info.color = kingColor →
            getValidMoves b (some pid) r c kingColor = [])
    ∧ (isStalemate b kingColor = true ↔
      isKingInCheck b kingColor = false ∧
        ∀ r c : Int, ∀ pid, cellAt b r c = some pid →
          ∀ info, getPieceInfo (some pid) = some info → info.color = kingColor →
            getValidMoves b (some pid) r c kingColor = [])
    ∧ ¬(isCheckmate b kingColor = true ∧ isStalemate b kingColor = true) := by
  have hno : colorHasLegalMove b kingColor = false ↔
      ∀ r c : Int, ∀ pid, cellAt b r c = some pid →
        ∀ info, getPieceInfo (some pid) = some info → info.color = kingColor →
          getValidMoves b (some pid) r c kingColor = [] := by
    rw [colorHasLegalMove, ← Bool.not_eq_true, List.any_eq_true]
    constructor
    · intro hall r c pid hpid info hinfo hcol
      by_contra hne
      apply hall
      refine ⟨(r, c), ?_, ?_⟩
      · rw [mem_allSquares]
        by_contra hoff
        rw [cellAt, if_neg (by simpa using hoff)] at hpid
        exact Option.noConfusion hpid
      · simp only [hpid, hinfo, hcol]
        simp [List.isEmpty_iff, hne]
    · rintro hall ⟨⟨r, c⟩, _, hholds⟩
      simp only at hholds
      split at hholds
      case _ pid hpid =>
        split at hholds
        case _ info hinfo =>
          simp only [Bool.and_eq_true, decide_eq_true_eq, Bool.not_eq_true'] at hholds
          obtain ⟨hcol, hne⟩ := hholds
          rw [hall r c pid hpid info hinfo hcol] at hne
          simp at hne
        case _ => exact Bool.noConfusion hholds
      case _ => exact Bool.noConfusion hholds
  refine ⟨?_, ?_, ?_⟩
  · rw [isCheckmate]
    rcases hck : isKingInCheck b kingColor with _ | _
    · simp [hck]
    · simpa [hck, Bool.not_eq_true'] using hno
  · rw [isStalemate]
    rcases hck : isKingInCheck b kingColor with _ | _
    · simpa [hck, Bool.not_eq_true'] using hno
    · simp [hck]
  · rintro ⟨hm, hs⟩
    rw [isCheckmate] at hm
    rw [isStalemate] at hs
    rcases hck : isKingInCheck b kingColor with _ | _ <;> rw [hck] at hm hs <;> simp at hm hs

/-! ## C6: ray characterization of the sliding pieces -/

/-- The squares produced by one ray scan, characterized: the `k`-th step
along the direction is produced exactly when every earlier step from `i`
on is an on-board empty square and the `k`-th is on board and empty or
holds an opposing piece. -/
theorem mem_scanFrom (b : Board) (info : PieceInfo) (row col dr dc : Int) (fuel : Nat) :
    ∀ (i : Nat) (m : Pos),
      m ∈ scanFrom b info row col dr dc i fuel ↔
        ∃ k : Nat, i ≤ k ∧ k < i + fuel ∧
          m = (row + dr * k, col + dc * k) ∧
          isOnBoard (row + dr * k) (col + dc * k) = true ∧
          (∀ j : Nat, i ≤ j → j < k →
            isOnBoard (row + dr * j) (col + dc * j) = true ∧
            cellAt b (row + dr * j) (col + dc * j) = none) ∧
          (cellAt b (row + dr * k) (col + dc * k) = none ∨
            ∃ tid tinfo, cellAt b (row + dr * k) (col + dc * k) = some tid ∧
              getPieceInfo (some tid) = some tinfo ∧ tinfo.color ≠ info.color) := by
  induction fuel with
  | zero =>
    intro i m
    rw [scanFrom]
    simp only [List.not_mem_nil, false_iff, not_exists, not_and]
    intro k hik hk
    omega
  | succ fuel ih =>
    intro i m
    rw [scanFrom]
    by_cases hon : isOnBoard (row + dr * i) (col + dc * i) = true
    · rw [if_pos hon]
      rcases hcell : cellAt b (row + dr * i) (col + dc * i) with _ | tid
      · -- empty square: the step is produced and the scan continues
        simp only [List.mem_cons, ih (i + 1) m]
        constructor
        · rintro (rfl | ⟨k, hik, hkf, rfl, honk, hbetween, htgt⟩)
          · exact ⟨i, le_refl i, by omega, rfl, hon, fun j h1 h2 => absurd h1 (by omega),
              Or.inl hcell⟩
          · refine ⟨k, by omega, by omega, rfl, honk, ?_, htgt⟩
            intro j h1 h2
            rcases Nat.eq_or_lt_of_le h1 with rfl | h1'
            · exact ⟨hon, hcell⟩
            · exact hbetween j h1' h2
        · rintro ⟨k, hik, hkf, rfl, honk, hbetween, htgt⟩
          rcases Nat.eq_or_lt_of_le hik with rfl | hik'
          · exact Or.inl rfl
          · refine Or.inr ⟨k, by omega, by omega, rfl, honk, ?_, htgt⟩
            intro j h1 h2
            exact hbetween j (by omega) h2
      · -- occupied square: capture or blocked, the scan stops
        rcases hinfo : getPieceInfo (some tid) with _ | tinfo
        · simp only [hinfo]
          simp only [List.not_mem_nil, false_iff, not_exists, not_and]
          intro k hik hkf hm honk hbetween
          rcases Nat.eq_or_lt_of_le hik with rfl | hik'
          · rintro (hnone | ⟨tid', tinfo', htid', hinfo', _⟩)
            · rw [hcell] at hnone; exact Option.noConfusion hnone
            · rw [hcell] at htid'
              injection htid' with h
              subst h
              rw [hinfo] at hinfo'
              exact Option.noConfusion hinfo'
          · have := (hbetween i (le_refl i) hik').2
            rw [hcell] at this
            exact fun _ => Option.noConfusion this
        · simp only [hinfo]
          by_cases hcol : tinfo.color ≠ info.color
          · rw [if_pos hcol]
            simp only [List.mem_singleton]
            constructor
            · rintro rfl
              exact ⟨i, le_refl i, by omega, rfl, hon,
                fun j h1 h2 => absurd h1 (by omega),
                Or.inr ⟨tid, tinfo, hcell, hinfo, hcol⟩⟩
            · rintro ⟨k, hik, hkf, rfl, honk, hbetween, htgt⟩
              rcases Nat.eq_or_lt_of_le hik with rfl | hik'
              · rfl
              · have := (hbetween i (le_refl i) hik').2
                rw [hcell] at this
                exact Option.noConfusion this
          · rw [if_neg hcol]
            simp only [List.not_mem_nil, false_iff, not_exists, not_and]
            intro k hik hkf hm honk hbetween
            rcases Nat.eq_or_lt_of_le hik with rfl | hik'
            · rintro (hnone | ⟨tid', tinfo', htid', hinfo', hcol'⟩)
              · rw [hcell] at hnone; exact Option.noConfusion hnone
              · rw [hcell] at htid'
                injection htid' with h
                subst h
                rw [hinfo] at hinfo'
                injection hinfo' with h'
                subst h'
                exact hcol hcol'
            · have := (hbetween i (le_refl i) hik').2
              rw [hcell] at this
              exact fun _ => Option.noConfusion this
    · rw [if_neg hon]
      simp only [List.not_mem_nil, false_iff, not_exists, not_and]
      intro k hik hkf hm honk hbetween
      rcases Nat.eq_or_lt_of_le hik with rfl | hik'
      · exact fun _ => hon honk
      · exact fun _ => hon (hbetween i (le_refl i) hik').1

/-- From an on-board origin, a generator-direction step that lands on the
board at step `k` stays on the board at every earlier step, and `k < 8`. -/
theorem ray_step_bound (row col : Int) (d : Int × Int)
    (hd : d ∈ rookDirections ∨ d ∈ bishopDirections)
    (hon : isOnBoard row col = true) (k : Nat)
    (htgt : isOnBoard (row + d.1 * k) (col + d.2 * k) = true) :
    k < 8 ∧ ∀ j : Nat, j ≤ k → isOnBoard (row + d.1 * j) (col + d.2 * j) = true := by
  rcases hd with hd | hd <;> fin_cases hd <;>
    simp only [isOnBoard, Bool.and_eq_true, decide_eq_true_eq] at hon htgt ⊢ <;>
    exact ⟨by omega, fun j hj => by refine ⟨⟨⟨?_, ?_⟩, ?_⟩, ?_⟩ <;> omega⟩

/-- The ray condition of the specification for a family of directions:
the target lies a positive number of unit steps from the origin along one
of the directions, is on the board, every square strictly between origin
and target on that ray is empty, and the target is empty or holds an
opposing piece.  (Stated from the spec's words, for comparison with the
generators.) -/
def rayMoveProp (b : Board) (info : PieceInfo) (row col : Int)
    (dirs : List (Int × Int)) (m : Pos) : Prop :=
  ∃ d ∈ dirs, ∃ k : Nat, 1 ≤ k ∧ m = (row + d.1 * k, col + d.2 * k) ∧
    isOnBoard (row + d.1 * k) (col + d.2 * k) = true ∧
    (∀ j : Nat, 1 ≤ j → j < k → cellAt b (row + d.1 * j) (col + d.2 * j) = none) ∧
    (cellAt b (row + d.1 * k) (col + d.2 * k) = none ∨
      ∃ tid tinfo, cellAt b (row + d.1 * k) (col + d.2 * k) = some tid ∧
        getPieceInfo (some tid) = some tinfo ∧ tinfo.color ≠ info.color)

theorem mem_ray_gen (b : Board) (info : PieceInfo) (row col : Int) (m : Pos)
    (dirs : List (Int × Int))
    (hdirs : dirs = rookDirections ∨ dirs = bishopDirections)
    (hon : isOnBoard row col = true) :
    m ∈ dirs.flatMap (fun d => scanFrom b info row col d.1 d.2 1 7) ↔
      rayMoveProp b info row col dirs m := by
  rw [List.mem_flatMap, rayMoveProp]
  constructor
  · rintro ⟨d, hd, hm⟩
    rw [mem_scanFrom] at hm
    obtain ⟨k, h1k, hk8, rfl, htgt, hbet, hok⟩ := hm
    exact ⟨d, hd, k, h1k, rfl, htgt, fun j hj1 hjk => (hbet j hj1 hjk).2, hok⟩
  · rintro ⟨d, hd, k, h1k, rfl, htgt, hbet, hok⟩
    have hdmem : d ∈ rookDirections ∨ d ∈ bishopDirections := by
      rcases hdirs with rfl | rfl
      · exact Or.inl hd
      · exact Or.inr hd
    obtain ⟨hk8, hall⟩ := ray_step_bound row col d hdmem hon k htgt
    refine ⟨d, hd, ?_⟩
    rw [mem_scanFrom]
    exact ⟨k, h1k, by omega, rfl, htgt,
      fun j hj1 hjk => ⟨hall j (by omega), hbet j hj1 hjk⟩, hok⟩

/-- C6: for a rook (resp. bishop, queen) on an on-board square, a square
is in its pseudo-legal move set iff it lies a positive number of unit
steps along a cardinal (resp. diagonal, either) direction, is on the
board, every square strictly between origin and target on that ray is
empty, and the target is empty or holds an opposing piece.  Consequently
squares holding a friendly piece, or lying beyond the first occupied
square of a ray, are never included. -/
theorem sliding_moves_ray_characterization (b : Board) (info : PieceInfo)
    (row col : Int) (m : Pos) (hon : isOnBoard row col = true) :
    (m ∈ getRookMoves b info row col ↔ rayMoveProp b info row col rookDirections m)
    ∧ (m ∈ getBishopMoves b info row col ↔ rayMoveProp b info row col bishopDirections m)
    ∧ (m ∈ getQueenMoves b info row col ↔
        (rayMoveProp b info row col rookDirections m ∨
          rayMoveProp b info row col bishopDirections m)) := by
  have hr := mem_ray_gen b info row col m rookDirections (Or.inl rfl) hon
  have hb := mem_ray_gen b info row col m bishopDirections (Or.inr rfl) hon
  refine ⟨hr, hb, ?_⟩
  show m ∈ getRookMoves b info row col ++ getBishopMoves b info row col ↔ _
  rw [List.mem_append]
  exact or_congr hr hb

/-- Witness for C6: on the pin board the White rook on e2 reaches e3,
derived through the ray characterization with direction `(-1, 0)`, one
step. -/
theorem sliding_moves_ray_characterization_witness :
    (5, 4) ∈ getRookMoves pinBoard ⟨.R, .White, "R"⟩ 6 4 :=
  ((sliding_moves_ray_characterization pinBoard ⟨.R, .White, "R"⟩ 6 4 (5, 4)
      (by decide)).1).mpr
    ⟨(-1, 0), by decide, 1, by decide, by decide, by decide,
      (by intro j h1 h2; omega), Or.inl (by decide)⟩

/-! ## C3: pawn move generation -/

/-- The pawn-move set exactly as the claim states it, including its
en-passant clause ("when `en_passant_target` is set, the diagonal capture
to the `en_passant_target` square").  Stated from the spec's words, for
comparison with `getPawnMoves`. -/
def pawnMoveClaim (b : Board) (color : Color) (row col : Int)
    (epTarget : Option Pos) (m : Pos) : Bool :=
  (decide (m = (row + pawnDir color, col)) &&
    isOnBoard (row + pawnDir color) col && (cellAt b (row + pawnDir color) col).isNone)
  || (decide (m = (row + 2 * pawnDir color, col)) && decide (row = pawnStartRow color)
      && isOnBoard (row + pawnDir color) col && (cellAt b (row + pawnDir color) col).isNone
      && isOnBoard (row + 2 * pawnDir color) col
      && (cellAt b (row + 2 * pawnDir color) col).isNone)
  || (([-1, 1] : List Int).any (fun off =>
        decide (m = (row + pawnDir color, col + off)) &&
          isOnBoard (row + pawnDir color) (col + off) &&
          (match getPieceInfo (cellAt b (row + pawnDir color) (col + off)) with
           | some tinfo => decide (tinfo.color ≠ color)
           | none => false)))
  || (match epTarget with
      | some e => decide (m = e) &&
          (decide (e = (row + pawnDir color, col - 1)) ||
            decide (e = (row + pawnDir color, col + 1)))
      | none => false)

/-- A position with a White pawn on e5 and a Black pawn on d5 that has
just double-pushed, so `en_passant_target` would be d6 = `(2, 3)`. -/
def epBoard : Board :=
  [[some "k", none, none, none, none, none, none, none],
   List.replicate 8 none, List.replicate 8 none,
   [none, none, none, some "p2", some "P1", none, none, none],
   List.replicate 8 none, List.replicate 8 none, List.replicate 8 none,
   [none, none, none, none, some "K", none, none, none]]

/-- Counterexample to C3 as stated: with `en_passant_target = (2, 3)` set,
the claim's pawn-move set contains the en-passant capture `(2, 3)`, but
`getPawnMoves` (which implements no en passant and takes no target) does
not produce it. -/
theorem getPawnMoves_en_passant_counterexample :
    pawnMoveClaim epBoard .White 3 4 (some (2, 3)) (2, 3) = true
    ∧ (2, 3) ∉ getPawnMoves epBoard ⟨.P, .White, "P1"⟩ 3 4 := by
  constructor
  · decide
  · decide

/-- C3 (amended): the pseudo-legal pawn move set is exactly: the square
one step forward when empty; two steps forward when the pawn stands on its
starting rank (6 for White, 1 for Black) and both intermediate and target
squares are empty; and the two forward-diagonal squares holding an
opposing piece.  En passant is not generated (`getPawnMoves` takes no
`en_passant_target`; the source's en-passant branch is a TODO comment). -/
theorem mem_getPawnMoves_iff (b : Board) (info : PieceInfo) (row col : Int) (m : Pos) :
    m ∈ getPawnMoves b info row col ↔
      ((m = (row + pawnDir info.color, col) ∧
          isOnBoard (row + pawnDir info.color) col = true ∧
          cellAt b (row + pawnDir info.color) col = none)
       ∨ (m = (row + 2 * pawnDir info.color, col) ∧ row = pawnStartRow info.color ∧
          isOnBoard (row + pawnDir info.color) col = true ∧
          cellAt b (row + pawnDir info.color) col = none ∧
          isOnBoard (row + 2 * pawnDir info.color) col = true ∧
          cellAt b (row + 2 * pawnDir info.color) col = none)
       ∨ (∃ off ∈ ([-1, 1] : List Int),
          m = (row + pawnDir info.color, col + off) ∧
          isOnBoard (row + pawnDir info.color) (col + off) = true ∧
          ∃ tid tinfo, cellAt b (row + pawnDir info.color) (col + off) = some tid ∧
            getPieceInfo (some tid) = some tinfo ∧ tinfo.color ≠ info.color)) := by
  rw [getPawnMoves, List.mem_append, ← or_assoc]
  apply or_congr
  · -- the forward-push part of the list
    by_cases h1 : (isOnBoard (row + pawnDir info.color) col &&
        (cellAt b (row + pawnDir info.color) col).isNone) = true
    · rw [if_pos h1]
      rw [Bool.and_eq_true, Option.isNone_iff_eq_none] at h1
      obtain ⟨hob, hcell⟩ := h1
      by_cases h2 : row = pawnStartRow info.color
      · rw [if_pos h2]
        by_cases h3 : (isOnBoard (row + 2 * pawnDir info.color) col &&
            (cellAt b (row + 2 * pawnDir info.color) col).isNone) = true
        · rw [if_pos h3]
          rw [Bool.and_eq_true, Option.isNone_iff_eq_none] at h3
          obtain ⟨hob2, hcell2⟩ := h3
          subst h2
          simp [hob, hcell, hob2, hcell2]
        · rw [if_neg h3]
          rw [Bool.and_eq_true, Option.isNone_iff_eq_none] at h3
          simp only [List.mem_cons, List.not_mem_nil, or_false]
          constructor
          · rintro rfl
            exact Or.inl ⟨rfl, hob, hcell⟩
          · rintro (⟨rfl, _⟩ | ⟨rfl, _, _, _, hob2, hcell2⟩)
            · rfl
            · exact absurd ⟨hob2, hcell2⟩ h3
      · rw [if_neg h2]
        simp only [List.mem_cons, List.not_mem_nil, or_false]
        constructor
        · rintro rfl
          exact Or.inl ⟨rfl, hob, hcell⟩
        · rintro (⟨rfl, _⟩ | ⟨rfl, h2', _⟩)
          · rfl
          · exact absurd h2' h2
    · rw [if_neg h1]
      rw [Bool.and_eq_true, Option.isNone_iff_eq_none] at h1
      simp only [List.not_mem_nil, false_iff]
      rintro (⟨rfl, hob, hcell⟩ | ⟨rfl, _, hob, hcell, _⟩) <;> exact h1 ⟨hob, hcell⟩
  · -- the diagonal-capture part of the list
    rw [List.mem_filterMap]
    constructor
    · rintro ⟨off, hoff, hf⟩
      refine ⟨off, hoff, ?_⟩
      by_cases hob : isOnBoard (row + pawnDir info.color) (col + off) = true
      · rw [if_pos hob] at hf
        rcases hc : cellAt b (row + pawnDir info.color) (col + off) with _ | tid
        · rw [hc] at hf
          exact Option.noConfusion hf
        · rw [hc] at hf
          rcases hi : getPieceInfo (some tid) with _ | tinfo
          · simp only [hi] at hf
            exact Option.noConfusion hf
          · simp only [hi] at hf
            by_cases hcol : tinfo.color ≠ info.color
            · rw [if_pos hcol] at hf
              injection hf with hf
              exact ⟨hf.symm, hob, tid, tinfo, rfl, hi, hcol⟩
            · rw [if_neg hcol] at hf
              exact Option.noConfusion hf
      · rw [if_neg hob] at hf
        exact Option.noConfusion hf
    · rintro ⟨off, hoff, rfl, hob, tid, tinfo, hc, hi, hcol⟩
      refine ⟨off, hoff, ?_⟩
      rw [if_pos hob, hc]
      simp only [hi]
      rw [if_pos hcol]

/-! ## C5: `createInitialBoard` piece ids -/

/-- The `whitePieces` row of `createInitialBoard` in `Gameboard.tsx`:
plain letters, so the two rooks, knights and bishops share one id each. -/
def whitePieceRow : List String := ["R", "N", "B", "Q", "K", "B", "N", "R"]

/-- JS `toLowerCase` on an ASCII piece string: lower-case each character. -/
def jsToLower (s : String) : String := ⟨s.data.map Char.toLower⟩

/-- `whitePieces.map(p => p.toLowerCase())`. -/
def blackPieceRow : List String := whitePieceRow.map jsToLower

/-- `Array.from({length: 8}, (_, index) => "P" + (index + 1))`. -/
def whitePawnRow : List String := (List.range 8).map (fun i => "P" ++ toString (i + 1))

/-- The Black pawn ids `p1..p8`. -/
def blackPawnRow : List String := (List.range 8).map (fun i => "p" ++ toString (i + 1))

/-- `createInitialBoard` of `Gameboard.tsx` (and the multiplayer Gameboard
variant): back ranks of plain letters, pawn ranks of numbered pawn ids,
four empty rows between. -/
def createInitialBoard (isWhiteBottom : Bool) : Board :=
  [(if isWhiteBottom then blackPieceRow else whitePieceRow).map some,
   (if isWhiteBottom then blackPawnRow else whitePawnRow).map some]
  ++ List.replicate 4 (List.replicate 8 none)
  ++ [(if isWhiteBottom then whitePawnRow else blackPawnRow).map some,
      (if isWhiteBottom then whitePieceRow else blackPieceRow).map some]

/-- Counterexample to C5 as stated: in the initial position the two Black
rooks occupy distinct cells `(0,0)` and `(0,7)` yet hold the identical
piece string `"r"` — the same id and the same color — so piece ids are
not unique within a color even at the position `createInitialBoard`
produces. -/
theorem createInitialBoard_duplicate_ids :
    cellAt (createInitialBoard true) 0 0 = some "r"
    ∧ cellAt (createInitialBoard true) 0 7 = some "r"
    ∧ ((0, 0) : Pos) ≠ ((0, 7) : Pos)
    ∧ (getPieceInfo (some "r")).map PieceInfo.color = some Color.Black := by
  refine ⟨?_, ?_, ?_, ?_⟩ <;> decide

/-- Occurrences of the piece string `s` among the 64 cells of a board. -/
def countCell (b : Board) (s : String) : Nat :=
  (allSquares.map (fun p => cellAt b p.1 p.2)).count (some s)

/-- C5 (amended): in the initial position produced by
`createInitialBoard`, each pawn id `P1..P8` / `p1..p8` occurs exactly
once, but each of the rook, knight and bishop ids `R N B r n b` occurs
twice — id uniqueness within a color holds for pawns and fails for the
doubled minor and rook pieces. -/
theorem createInitialBoard_id_counts :
    ∀ wb : Bool,
      (∀ s ∈ (["P1", "P2", "P3", "P4", "P5", "P6", "P7", "P8",
               "p1", "p2", "p3", "p4", "p5", "p6", "p7", "p8"] : List String),
        countCell (createInitialBoard wb) s = 1)
      ∧ (∀ s ∈ (["R", "N", "B", "r", "n", "b"] : List String),
        countCell (createInitialBoard wb) s = 2) := by
  decide

/-- Witness for the amended C5 at concrete ids: pawn id `P1` occurs once
and rook id `r` twice on the initial board. -/
theorem createInitialBoard_id_counts_witness :
    countCell (createInitialBoard true) "P1" = 1
    ∧ countCell (createInitialBoard true) "r" = 2 :=
  ⟨(createInitialBoard_id_counts true).1 "P1" (by decide),
   (createInitialBoard_id_counts true).2 "r" (by decide)⟩

/-! ## C2: the Main-board capture mirror -/

/-- The inner `for (let j …)` loop of the capture mirror with its `break`:
blank out the first cell of the row equal to the captured piece string. -/
def removeFirstMatchRow (target : String) : List Cell → List Cell
  | [] => []
  | c :: rest =>
    if c = some target then none :: rest
    else c :: removeFirstMatchRow target rest

/-- The capture-mirror double loop of `handleSquareClick`: in every row of
the secondary board, blank the first cell holding the captured piece
string (the source's `break` leaves the 8-row outer loop running, so each
of the 8 rows of an 8×8 board is scanned). -/
def mirrorCaptureRemove (secondary : Board) (target : String) : Board :=
  secondary.map (removeFirstMatchRow target)

/-- The Main-board branch of `handleSquareClick` once a piece and a
destination are chosen: move the piece on the main board, and if the
destination held a piece, remove its id from the secondary board. -/
def handleSquareClickMove (main secondary : Board) (fromRow fromCol row col : Int) :
    Board × Board :=
  match cellAt main fromRow fromCol with
  | none => (main, secondary)
  | some piece =>
    (setCell (setCell main row col (some piece)) fromRow fromCol none,
     match cellAt main row col with
     | some target => mirrorCaptureRemove secondary target
     | none => secondary)

theorem removeFirstMatchRow_not_mem (target : String) (row : List Cell)
    (hcount : row.count (some target) ≤ 1) :
    some target ∉ removeFirstMatchRow target row := by
  induction row with
  | nil => simp [removeFirstMatchRow]
  | cons c rest ih =>
    rw [removeFirstMatchRow]
    by_cases hc : c = some target
    · rw [if_pos hc]
      rw [List.count_cons, if_pos (beq_iff_eq.mpr hc)] at hcount
      have hrest : rest.count (some target) = 0 := by omega
      rw [List.count_eq_zero] at hrest
      intro hmem
      rcases List.mem_cons.mp hmem with h | h
      · exact Option.noConfusion h
      · exact hrest h
    · rw [if_neg hc]
      rw [List.count_cons, if_neg (fun h => hc (beq_iff_eq.mp h))] at hcount
      intro hmem
      rcases List.mem_cons.mp hmem with h | h
      · exact hc h.symm
      · exact ih (by omega) h

theorem removeFirstMatchRow_of_not_mem (target : String) (row : List Cell)
    (h : some target ∉ row) : removeFirstMatchRow target row = row := by
  induction row with
  | nil => rfl
  | cons c rest ih =>
    rw [removeFirstMatchRow,
      if_neg (fun (hc : c = some target) => h (hc ▸ List.mem_cons_self c rest))]
    rw [ih (fun hm => h (List.mem_cons_of_mem c hm))]

/-- C2: a Main-board move whose destination holds a piece (a capture)
removes the piece with that id from the Secondary board: afterwards no
secondary cell holds the captured id (the game's id-uniqueness means the
id occurs at most once, the hypothesis below), and when the id was already
absent the Secondary board is left unchanged. -/
theorem main_capture_mirror (main secondary : Board) (fromRow fromCol row col : Int)
    (target piece : String)
    (hpiece : cellAt main fromRow fromCol = some piece)
    (hcap : cellAt main row col = some target)
    (hcount : (secondary.map (fun r => r.count (some target))).sum ≤ 1) :
    (∀ r ∈ (handleSquareClickMove main secondary fromRow fromCol row col).2,
      some target ∉ r)
    ∧ ((∀ r ∈ secondary, some target ∉ r) →
      (handleSquareClickMove main secondary fromRow fromCol row col).2 = secondary) := by
  rw [handleSquareClickMove, hpiece, hcap]
  constructor
  · intro r hr
    simp only [mirrorCaptureRemove, List.mem_map] at hr
    obtain ⟨row2, hrow2, rfl⟩ := hr
    apply removeFirstMatchRow_not_mem
    have hmem : row2.count (some target) ∈ secondary.map (fun r => r.count (some target)) :=
      List.mem_map.mpr ⟨row2, hrow2, rfl⟩
    calc row2.count (some target)
        ≤ (secondary.map (fun r => r.count (some target))).sum :=
          List.single_le_sum (fun x _ => Nat.zero_le x) _ hmem
      _ ≤ 1 := hcount
  · intro habsent
    show mirrorCaptureRemove secondary target = secondary
    rw [mirrorCaptureRemove]
    calc secondary.map (removeFirstMatchRow target)
        = secondary.map id := by
          apply List.map_congr_left
          intro r hr
          exact removeFirstMatchRow_of_not_mem target r (habsent r hr)
      _ = secondary := List.map_id secondary

/-- A main board with a White rook on e2 about to capture the Black
knight `n1` on e5, and a secondary board holding the same id `n1`. -/
def mirrorMain : Board :=
  [[some "k", none, none, none, none, none, none, none],
   List.replicate 8 none, List.replicate 8 none,
   [none, none, none, none, some "n1", none, none, none],
   List.replicate 8 none, List.replicate 8 none,
   [none, none, none, none, some "R", none, none, none],
   [none, none, none, none, some "K", none, none, none]]

/-- A secondary board holding `n1` on g8. -/
def mirrorSec : Board :=
  [[some "k", none, none, none, none, none, some "n1", none],
   List.replicate 8 none, List.replicate 8 none, List.replicate 8 none,
   List.replicate 8 none, List.replicate 8 none, List.replicate 8 none,
   [none, none, none, none, some "K", none, none, none]]

/-- Witness for C2: capturing `n1` on the main board leaves no `n1` cell
on the secondary board. -/
theorem main_capture_mirror_witness :
    (∀ r ∈ (handleSquareClickMove mirrorMain mirrorSec 6 4 3 4).2, some "n1" ∉ r)
    ∧ ((∀ r ∈ mirrorSec, some "n1" ∉ r) →
      (handleSquareClickMove mirrorMain mirrorSec 6 4 3 4).2 = mirrorSec) :=
  main_capture_mirror mirrorMain mirrorSec 6 4 3 4 "n1" "R" (by decide) (by decide)
    (by decide)

/-! ## C7 and C8: the lobby registry of `backend/lobbyManager.ts` -/

/-- The `Lobby` interface of `lobbyManager.ts`. -/
structure Lobby where
  roomId : String
  host : String
  isPrivate : Bool
  createdAt : Int
  players : List String
deriving DecidableEq, Repr

/-- The `lobbies: Map<string, Lobby>` registry, as an insertion-ordered
association list. -/
abbrev LobbyRegistry := List (String × Lobby)

/-- JS `Map.get`. -/
def mapGet : LobbyRegistry → String → Option Lobby
  | [], _ => none
  | e :: rest, k => if e.1 = k then some e.2 else mapGet rest k

/-- JS `Map.set`: replace the value in place when the key exists,
otherwise append. -/
def mapSet : LobbyRegistry → String → Lobby → LobbyRegistry
  | [], k, v => [(k, v)]
  | e :: rest, k, v => if e.1 = k then (k, v) :: rest else e :: mapSet rest k v

/-- JS `Map.delete`. -/
def mapDelete : LobbyRegistry → String → LobbyRegistry
  | [], _ => []
  | e :: rest, k => if e.1 = k then rest else e :: mapDelete rest k

/-- `LOBBY_TIMEOUT = 30 * 60 * 1000` of `lobbyManager.ts`. -/
def LOBBY_TIMEOUT : Int := 30 * 60 * 1000

/-- `createLobby` of `lobbyManager.ts`: build a fresh lobby with the host
as sole player and `this.lobbies.set(roomId, lobby)` — unconditionally;
`Date.now()` is passed in as `now`.  Returns the lobby and the new
registry. -/
def createLobby (m : LobbyRegistry) (roomId host : String) (isPrivate : Bool)
    (now : Int) : Lobby × LobbyRegistry :=
  let lobby : Lobby := ⟨roomId, host, isPrivate, now, [host]⟩
  (lobby, mapSet m roomId lobby)

/-- `addPlayerToLobby` of `lobbyManager.ts`. -/
def addPlayerToLobby (m : LobbyRegistry) (roomId player : String) :
    LobbyRegistry × Bool :=
  match mapGet m roomId with
  | some lobby =>
    if player ∈ lobby.players then (m, false)
    else (mapSet m roomId { lobby with players := lobby.players ++ [player] }, true)
  | none => (m, false)

/-- `removePlayerFromLobby` of `lobbyManager.ts`: splice the player out
(first occurrence); delete the lobby when the player list becomes empty. -/
def removePlayerFromLobby (m : LobbyRegistry) (roomId player : String) :
    LobbyRegistry × Bool :=
  match mapGet m roomId with
  | some lobby =>
    if player ∈ lobby.players then
      if lobby.players.erase player = [] then (mapDelete m roomId, true)
      else (mapSet m roomId { lobby with players := lobby.players.erase player }, true)
    else (m, false)
  | none => (m, false)

/-- The body of `startCleanupInterval` run at time `now`: drop every lobby
with `now - lobby.createdAt > LOBBY_TIMEOUT`. -/
def cleanupLobbies (m : LobbyRegistry) (now : Int) : LobbyRegistry :=
  m.filter (fun e => !(decide (now - e.2.createdAt > LOBBY_TIMEOUT)))

theorem mapGet_mapSet_self (m : LobbyRegistry) (k : String) (v : Lobby) :
    mapGet (mapSet m k v) k = some v := by
  induction m with
  | nil => simp [mapSet, mapGet]
  | cons e rest ih =>
    rw [mapSet]
    by_cases h : e.1 = k
    · rw [if_pos h, mapGet, if_pos rfl]
    · rw [if_neg h, mapGet, if_neg h, ih]

theorem mapGet_eq_none_of_not_mem (m : LobbyRegistry) (k : String)
    (h : k ∉ m.map Prod.fst) : mapGet m k = none := by
  induction m with
  | nil => rfl
  | cons e rest ih =>
    rw [List.map_cons] at h
    rw [mapGet, if_neg (fun (he : e.1 = k) =>
      h (he ▸ List.mem_cons_self e.1 (List.map Prod.fst rest))), ih]
    intro hm
    exact h (List.mem_cons_of_mem _ hm)

theorem mapGet_mapDelete_self (m : LobbyRegistry) (k : String)
    (hnd : (m.map Prod.fst).Nodup) : mapGet (mapDelete m k) k = none := by
  induction m with
  | nil => rfl
  | cons e rest ih =>
    rw [List.map_cons, List.nodup_cons] at hnd
    rw [mapDelete]
    by_cases h : e.1 = k
    · rw [if_pos h]
      exact mapGet_eq_none_of_not_mem rest k (h ▸ hnd.1)
    · rw [if_neg h, mapGet, if_neg h]
      exact ih hnd.2

theorem mapGet_filter (m : LobbyRegistry) (p : String × Lobby → Bool) (k : String)
    (l : Lobby) (hnd : (m.map Prod.fst).Nodup) :
    mapGet (m.filter p) k = some l ↔ mapGet m k = some l ∧ p (k, l) = true := by
  induction m with
  | nil => simp [mapGet]
  | cons e rest ih =>
    obtain ⟨e1, e2⟩ := e
    rw [List.map_cons, List.nodup_cons] at hnd
    obtain ⟨hknotin, hndrest⟩ := hnd
    rw [List.filter_cons]
    by_cases hek : e1 = k
    · subst hek
      by_cases hp : p (e1, e2) = true
      · rw [if_pos hp, mapGet, if_pos rfl, mapGet, if_pos rfl]
        constructor
        · intro h
          refine ⟨h, ?_⟩
          injection h with h
          rw [← h]
          exact hp
        · exact And.left
      · rw [if_neg hp, ih hndrest,
          mapGet_eq_none_of_not_mem rest e1 (by simpa using hknotin),
          mapGet, if_pos rfl]
        constructor
        · rintro ⟨h, _⟩
          exact Option.noConfusion h
        · rintro ⟨h, hpl⟩
          injection h with h
          exfalso
          apply hp
          simp only at h
          rw [h]
          exact hpl
    · rw [mapGet, if_neg hek]
      by_cases hp : p (e1, e2) = true
      · rw [if_pos hp, mapGet, if_neg hek]
        exact ih hndrest
      · rw [if_neg hp]
        exact ih hndrest

/-- The original lobby of the C7 counterexample. -/
def lobbyA : Lobby := ⟨"room1", "alice", false, 0, ["alice", "bob"]⟩

/-- Counterexample to C7 as stated: with `room1` already registered to
host `alice`, a `create_lobby` for `room1` by `carol` does not fail — the
code has no error path — and replaces the existing lobby: afterwards the
registry maps `room1` to carol's fresh lobby, not alice's. -/
theorem createLobby_overwrites_counterexample :
    mapGet [("room1", lobbyA)] "room1" = some lobbyA
    ∧ mapGet (createLobby [("room1", lobbyA)] "room1" "carol" true 5).2 "room1"
        = some ⟨"room1", "carol", true, 5, ["carol"]⟩
    ∧ (⟨"room1", "carol", true, 5, ["carol"]⟩ : Lobby) ≠ lobbyA := by
  refine ⟨?_, ?_, ?_⟩ <;> decide

/-- C7 (amended): `createLobby` never fails; for any prior registry state
it installs a fresh lobby under the room id — overwriting any existing
lobby with that id — with the host as sole player, and returns that
lobby. -/
theorem createLobby_always_overwrites (m : LobbyRegistry) (roomId host : String)
    (isPrivate : Bool) (now : Int) :
    (createLobby m roomId host isPrivate now).1
      = ⟨roomId, host, isPrivate, now, [host]⟩
    ∧ mapGet (createLobby m roomId host isPrivate now).2 roomId
      = some ⟨roomId, host, isPrivate, now, [host]⟩ :=
  ⟨rfl, mapGet_mapSet_self m roomId _⟩

/-- Counterexample to C8 as stated: the cleanup keys on `createdAt`,
which no activity ever refreshes.  A lobby created at time `0` that
gained a second player (activity) still holds two players, yet the
cleanup pass at `now = 1 860 000` (31 minutes after creation) removes
it. -/
theorem cleanup_ignores_activity_counterexample :
    (addPlayerToLobby (createLobby [] "a" "alice" false 0).2 "a" "bob").1
      = [("a", ⟨"a", "alice", false, 0, ["alice", "bob"]⟩)]
    ∧ mapGet (cleanupLobbies
        [("a", ⟨"a", "alice", false, 0, ["alice", "bob"]⟩)] 1860000) "a" = none := by
  constructor <;> decide

/-- C8 (amended): the periodic cleanup at time `now` keeps a lobby iff it
is younger than 30 minutes *since creation* (activity plays no role, the
code tracks none), and `removePlayerFromLobby` deletes the lobby exactly
when the departing player was the last one; with members remaining the
lobby survives with that player spliced out. -/
theorem lobby_expiry_characterization (m : LobbyRegistry) (now : Int)
    (roomId : String) (l : Lobby) (hnd : (m.map Prod.fst).Nodup) :
    (mapGet (cleanupLobbies m now) roomId = some l ↔
      mapGet m roomId = some l ∧ ¬(now - l.createdAt > LOBBY_TIMEOUT))
    ∧ (∀ p, mapGet m roomId = some l → p ∈ l.players →
      (l.players.erase p = [] →
        mapGet (removePlayerFromLobby m roomId p).1 roomId = none)
      ∧ (l.players.erase p ≠ [] →
        mapGet (removePlayerFromLobby m roomId p).1 roomId
          = some ⟨l.roomId, l.host, l.isPrivate, l.createdAt, l.players.erase p⟩)) := by
  constructor
  · rw [cleanupLobbies, mapGet_filter m _ roomId l hnd]
    simp only [Bool.not_eq_true', decide_eq_false_iff_not]
  · intro p hget hp
    constructor
    · intro hempty
      rw [removePlayerFromLobby]
      simp only [hget]
      rw [if_pos hp, if_pos hempty]
      exact mapGet_mapDelete_self m roomId hnd
    · intro hne
      rw [removePlayerFromLobby]
      simp only [hget]
      rw [if_pos hp, if_neg hne]
      exact mapGet_mapSet_self m roomId _

/-- Witness for the amended C8 at a concrete registry: a 31-minute-old
lobby is dropped by cleanup, a 29-minute-old one is kept, and removing
the last player deletes the lobby. -/
theorem lobby_expiry_characterization_witness :
    (mapGet (cleanupLobbies [("a", lobbyA)] 1860000) "a" = some lobbyA ↔
      mapGet [("a", lobbyA)] "a" = some lobbyA ∧ ¬((1860000 : Int) - lobbyA.createdAt > LOBBY_TIMEOUT))
    ∧ mapGet (removePlayerFromLobby
        [("b", (⟨"b", "carol", false, 0, ["carol"]⟩ : Lobby))] "b" "carol").1 "b" = none :=
  ⟨(lobby_expiry_characterization [("a", lobbyA)] 1860000 "a" lobbyA (by decide)).1,
   ((lobby_expiry_characterization [("b", ⟨"b", "carol", false, 0, ["carol"]⟩)] 1860000
      "b" ⟨"b", "carol", false, 0, ["carol"]⟩ (by decide)).2 "carol" (by decide)
      (by decide)).1 (by decide)⟩

/-! ## C10: `getValidMoves` does not mutate its input board

JS arrays are references into a heap, so the frame property — the
legality loop mutates only its per-iteration deep copy, never the caller's
board — is stated over an explicit heap: row arrays live in a `Heap`, a
board handle is the outer array of row addresses, `board.map(row =>
[...row])` allocates fresh rows, and the two assignments of the loop write
through the copy's handle. -/

/-- The heap of allocated row arrays; an address is an index. -/
abbrev Heap := List (List Cell)

/-- A JS board value: the outer array of row references. -/
abbrev BoardH := List Nat

/-- Dereference one row. -/
def readRowH (σ : Heap) (a : Nat) : List Cell := σ.getD a []

/-- Dereference a whole board handle to its cell contents. -/
def derefBoard (σ : Heap) (h : BoardH) : Board := h.map (readRowH σ)

/-- `board.map(row => [...row])`: allocate one fresh row per row of the
board, each holding a copy of the current contents; the new outer array
holds the fresh addresses. -/
def deepCopyH (σ : Heap) (h : BoardH) : BoardH × Heap :=
  (List.range' σ.length h.length, σ ++ derefBoard σ h)

/-- `tempBoard[row][col] = v` through a handle (the source only performs
this on on-board coordinates; off-board rows would throw in JS and are
modelled as a no-op). -/
def writeCellH (σ : Heap) (h : BoardH) (row col : Int) (v : Cell) : Heap :=
  if isOnBoard row col then
    σ.set (h.getD row.toNat 0) ((readRowH σ (h.getD row.toNat 0)).set col.toNat v)
  else σ

/-- The legality loop of `getValidMoves` over the heap: the pseudo-legal
moves are computed once from the live board, then each iteration deep
copies the board, plays the move on the copy, and keeps the move when the
mover's king is not in check on the copy. -/
def getValidMovesH (σ : Heap) (h : BoardH) (pieceId : Cell)
    (fromRow fromCol : Int) (playerTurn : Color) : List Pos × Heap :=
  (pseudoLegalMoves (derefBoard σ h) pieceId fromRow fromCol playerTurn).foldl
    (fun acc m =>
      let copy := deepCopyH acc.2 h
      let σ2 := writeCellH copy.2 copy.1 m.1 m.2 pieceId
      let σ3 := writeCellH σ2 copy.1 fromRow fromCol none
      if !isKingInCheck (derefBoard σ3 copy.1) playerTurn then
        (acc.1 ++ [m], σ3)
      else (acc.1, σ3))
    ([], σ)

theorem readRowH_append (σ τ : Heap) (a : Nat) (ha : a < σ.length) :
    readRowH (σ ++ τ) a = readRowH σ a :=
  List.getD_append σ τ [] a ha

theorem readRowH_set_ne (σ : Heap) (a b : Nat) (row : List Cell) (hne : a ≠ b) :
    readRowH (σ.set a row) b = readRowH σ b := by
  rw [readRowH, readRowH, List.getD_eq_getElem?_getD, List.getElem?_set_ne hne,
    ← List.getD_eq_getElem?_getD]

theorem writeCellH_frame (σ : Heap) (h : BoardH) (row col : Int) (v : Cell)
    (n : Nat) (hfresh : ∀ a ∈ h, n ≤ a) (hlen : h.length = 8) :
    (∀ b < n, readRowH (writeCellH σ h row col v) b = readRowH σ b)
    ∧ σ.length ≤ (writeCellH σ h row col v).length := by
  rw [writeCellH]
  split
  · next hon =>
    have hrow8 : row.toNat < 8 := by
      simp only [isOnBoard, Bool.and_eq_true, decide_eq_true_eq] at hon
      omega
    have hmem : h.getD row.toNat 0 ∈ h := by
      rw [List.getD_eq_getElem?_getD]
      have : row.toNat < h.length := by omega
      rw [List.getElem?_eq_getElem this]
      exact List.getElem_mem _
    constructor
    · intro b hb
      exact readRowH_set_ne σ _ b _ (fun he => by
        have := hfresh _ hmem
        omega)
    · rw [List.length_set]
  · exact ⟨fun _ _ => rfl, le_refl _⟩

theorem deepCopyH_fresh (σ : Heap) (h : BoardH) :
    (∀ a ∈ (deepCopyH σ h).1, σ.length ≤ a)
    ∧ (deepCopyH σ h).1.length = h.length
    ∧ σ.length ≤ (deepCopyH σ h).2.length
    ∧ (∀ b < σ.length, readRowH (deepCopyH σ h).2 b = readRowH σ b) := by
  refine ⟨?_, List.length_range' .., by simp [deepCopyH], ?_⟩
  · intro a ha
    rw [deepCopyH] at ha
    simp only [List.mem_range'_1] at ha
    omega
  · intro b hb
    exact readRowH_append σ _ b hb

/-- C10: `getValidMoves` leaves its input board unchanged: after the
legality loop runs, dereferencing the caller's board handle yields exactly
the cells it held before the call — every simulation happened on the
per-iteration deep copy. -/
theorem getValidMoves_leaves_board_unchanged (σ : Heap) (h : BoardH) (pieceId : Cell)
    (fromRow fromCol : Int) (playerTurn : Color)
    (hv : ∀ a ∈ h, a < σ.length) (hlen : h.length = 8) :
    derefBoard (getValidMovesH σ h pieceId fromRow fromCol playerTurn).2 h
      = derefBoard σ h := by
  rw [getValidMovesH]
  set step := fun (acc : List Pos × Heap) (m : Pos) =>
    let copy := deepCopyH acc.2 h
    let σ2 := writeCellH copy.2 copy.1 m.1 m.2 pieceId
    let σ3 := writeCellH σ2 copy.1 fromRow fromCol none
    if !isKingInCheck (derefBoard σ3 copy.1) playerTurn then
      (acc.1 ++ [m], σ3)
    else (acc.1, σ3)
    with hstep
  have key : ∀ (moves : List Pos) (acc : List Pos × Heap),
      σ.length ≤ acc.2.length →
      (∀ b < σ.length, readRowH acc.2 b = readRowH σ b) →
      σ.length ≤ (moves.foldl step acc).2.length ∧
      (∀ b < σ.length, readRowH (moves.foldl step acc).2 b = readRowH σ b) := by
    intro moves
    induction moves with
    | nil => exact fun acc h1 h2 => ⟨h1, h2⟩
    | cons m rest ih =>
      intro acc h1 h2
      rw [List.foldl_cons]
      apply ih
      all_goals {
        obtain ⟨hfresh, hcplen, hgrow, hcpread⟩ := deepCopyH_fresh acc.2 h
        have hfresh2 : ∀ a ∈ (deepCopyH acc.2 h).1, σ.length ≤ a :=
          fun a ha => le_trans h1 (hfresh a ha)
        have hlen2 : (deepCopyH acc.2 h).1.length = 8 := by rw [hcplen, hlen]
        obtain ⟨hw2read, hw2len⟩ :=
          writeCellH_frame (deepCopyH acc.2 h).2 (deepCopyH acc.2 h).1 m.1 m.2 pieceId
            σ.length hfresh2 hlen2
        obtain ⟨hw3read, hw3len⟩ :=
          writeCellH_frame (writeCellH (deepCopyH acc.2 h).2 (deepCopyH acc.2 h).1
              m.1 m.2 pieceId) (deepCopyH acc.2 h).1 fromRow fromCol none
            σ.length hfresh2 hlen2
        simp only [hstep]
        split
        all_goals first
          | exact le_trans (le_trans (le_trans h1 hgrow) hw2len) hw3len
          | (intro b hb
             exact ((hw3read b hb).trans ((hw2read b hb).trans (hcpread b (lt_of_lt_of_le hb h1)))).trans
               (h2 b hb))
      }
  have hfin := key (pseudoLegalMoves (derefBoard σ h) pieceId fromRow fromCol playerTurn)
    ([], σ) (le_refl _) (fun _ _ => rfl)
  rw [derefBoard, derefBoard]
  apply List.map_congr_left
  intro a ha
  exact hfin.2 a (hv a ha)

/-- A two-row heap and handle used to witness C10 concretely. -/
def witnessHeap : Heap :=
  [[some "k", none, none, none, none, none, none, none],
   List.replicate 8 none, List.replicate 8 none, List.replicate 8 none,
   List.replicate 8 none, List.replicate 8 none,
   [none, none, none, none, some "R", none, none, none],
   [none, none, none, none, some "K", none, none, none]]

/-- The handle of the witness board: rows 0–7 of the heap in order. -/
def witnessHandle : BoardH := [0, 1, 2, 3, 4, 5, 6, 7]

/-- Witness for C10: running the legality loop for the rook leaves the
original board's cells untouched. -/
theorem getValidMoves_leaves_board_unchanged_witness :
    derefBoard (getValidMovesH witnessHeap witnessHandle (some "R") 6 4 .White).2
        witnessHandle
      = derefBoard witnessHeap witnessHandle :=
  getValidMoves_leaves_board_unchanged witnessHeap witnessHandle (some "R") 6 4 .White
    (by decide) (by decide)

end Twofold
